import Mathlib

/-!
Verification development for the structural hardware emulator in
`hardware.py` (breadboard-CPU simulator).  The Python classes `Net`,
`System` and the chip catalog (`IC_74HC574`, `IC_74HC161`, `IC_74HC193`,
`IC_74HC245`, `IC_74HC283`, `IC_74HC138`, `IC_74HC154`, `IC_74HC04`,
`IC_74HC08`, `IC_74HC32`, `IC_74HC00`, `IC_28C256`/`IC_62256`, `GAL_ALU`)
are shallowly embedded as Lean structures and functions.  Pin reads
deliver the wired net's committed state, a `Nat` (the logic levels used by
the design are 0 and 1); output pin records hold a `DriveVal`.  Mutation
is modelled by explicit state passing.
-/

namespace Hardware

/-- Value returned by a net-driver callback: Python `None`, the tri-state
marker `'Z'`, or an integer logic level.  `Net.eval` treats `pyNone` and
`hiZ` identically (the source guard is `if v is not None and v != 'Z'`). -/
inductive DriveVal where
  | pyNone : DriveVal
  | hiZ : DriveVal
  | val : Nat → DriveVal
deriving DecidableEq

/-- A driver callback registered on a net.  `System.wire` registers
closures of the form `lambda: chip.out_states.get(pin_name, 'Z')`,
modelled as `pinRead` (resolved through an environment mapping
(chip ref, output pin) to the recorded output state).  The CPU topology
also registers ad-hoc lambdas reading scalar state (`clk_val`, register
`val` fields, ...); such a callback is modelled by the value it currently
returns (`ext`). -/
inductive Driver where
  | pinRead (ref pinName : String) : Driver
  | ext (v : DriveVal) : Driver
deriving DecidableEq

/-- The value a driver callback returns, given the current contents of
every chip's `out_states` map. -/
def Driver.value (env : String → String → DriveVal) : Driver → DriveVal
  | .pinRead r p => env r p
  | .ext v => v

/-- The Python `Net`: name, optional pull, double-buffered state, and the
registered driver callbacks. -/
structure Net where
  name : String
  pull : Option Nat
  state : Nat
  nextState : Nat
  drivers : List Driver

/-- Loop body of `Net.eval` (hardware.py lines 19-25):
`val = None; for d in drivers: v = d();` then, when `v` is not `None` and
not `'Z'`, a comparison `if val is not None and val != v:` whose body is
the no-op `pass  # Bus contention`, followed by `val = v`.  The fold below
is therefore the entire observable behaviour: the last driving value
wins and no contention information is produced. -/
def resolveDrivers (vs : List DriveVal) : Option Nat :=
  vs.foldl (fun val v => match v with | .val x => some x | _ => val) Option.none

/-- `Net.eval` (hardware.py lines 18-26): compute `next_state` from the
drivers, falling back to `pull` if set, else 0. -/
def Net.eval (env : String → String → DriveVal) (n : Net) : Net :=
  { n with nextState :=
      match resolveDrivers (n.drivers.map (Driver.value env)) with
      | some v => v
      | Option.none => match n.pull with | some p => p | Option.none => 0 }

/-- `Net.apply` (hardware.py lines 28-31): commit `next_state` and report
whether the committed value changed. -/
def Net.apply (n : Net) : Net × Bool :=
  ({ n with state := n.nextState }, n.state != n.nextState)

/-- Wiring-level view of the Python `Chip` base class: reference label,
part tag, declared pin lists, and the pin-to-net connection map.  The
Python dict assignment `chip.connections[pin_name] = net` is modelled by
prepending (lookups take the first match). -/
structure Chip where
  ref : String
  partName : String
  inputs : List String
  outputs : List String
  connections : List (String × String)
deriving DecidableEq

/-- `System.wire` (hardware.py lines 51-57).  The Python method raises
`ValueError(f"Pin {pin_name} not found on {chip.ref} ({chip.part_name})")`
before performing any mutation; success updates the connection map,
appends to the wiring log, and, for an output pin, appends a driver
callback reading `chip.out_states` to the net's driver list.  The raise
is modelled as `Except.error` carrying the message; no updated state is
produced in that case. -/
def System.wire (chip : Chip) (pinName : String) (net : Net)
    (log : List (String × String × String)) :
    Except String (Chip × Net × List (String × String × String)) :=
  if pinName ∉ chip.inputs ∧ pinName ∉ chip.outputs then
    .error ("Pin " ++ pinName ++ " not found on " ++ chip.ref ++ " (" ++ chip.partName ++ ")")
  else
    .ok ({ chip with connections := (pinName, net.name) :: chip.connections },
         (if pinName ∈ chip.outputs then
            { net with drivers := net.drivers ++ [Driver.pinRead chip.ref pinName] }
          else net),
         log ++ [(chip.ref, pinName, net.name)])

/-- Abstract view of a `System` for the settling loop of
`System.eval_combinational` (hardware.py lines 67-78).  `σ` aggregates
the mutable state of all chips (internal registers and `out_states`) and
the scalar drivers (`clk_val`, `reset_val`).  `chipEval` is one round of
`for chip in self.chips: chip.eval()` in the fixed list order, reading
the committed net states; `netNext` computes every net's `next_state`
from the post-eval chip state (every driver callback registered in this
repository reads only chip/scalar state, never another net's committed
state, so the per-net `eval();apply()` interleaving of the source is
order-independent and equivalent to this simultaneous form; the pull
fallbacks are part of the function). -/
structure SimSys (σ : Type) where
  chipEval : σ → List Nat → σ
  netNext : σ → List Nat

/-- One full settling pass: evaluate every chip, then evaluate and commit
every net. -/
def SimSys.onePass {σ : Type} (S : SimSys σ) (s : σ × List Nat) : σ × List Nat :=
  let c := S.chipEval s.1 s.2
  (c, S.netNext c)

/-- Fuel-indexed settling loop.  Returns the final (chip state, net
states), a flag modelling whether the source printed
`"WARNING: Combinational loop detected!"`, and the number of passes
performed. -/
def SimSys.settleAux {σ : Type} (S : SimSys σ) : Nat → σ × List Nat → (σ × List Nat) × Bool × Nat
  | 0, s => (s, true, 0)
  | n + 1, s =>
    if (S.onePass s).2 = s.2 then (S.onePass s, false, 1)
    else ((S.settleAux n (S.onePass s)).1, (S.settleAux n (S.onePass s)).2.1,
          (S.settleAux n (S.onePass s)).2.2 + 1)

/-- `System.eval_combinational` (hardware.py lines 67-78): `for _ in
range(30):` evaluate all chips, then evaluate and commit all nets; return
as soon as a full pass changes no net; after 30 changing passes fall out
of the loop and print the combinational-loop warning (modelled by the
returned flag). -/
def SimSys.eval_combinational {σ : Type} (S : SimSys σ) (s : σ × List Nat) :
    (σ × List Nat) × Bool × Nat :=
  SimSys.settleAux S 30 s

/-- Extension of `SimSys` for `System.tick`: `setClk b` is the assignment
`self.clk_val = b` (the CLK net's driver reads this scalar; its lazy
first-call registration is construction, assumed done), and `tickChips`
is `for chip in self.chips: chip.tick()` reading the committed net
states. -/
structure ClockedSys (σ : Type) extends SimSys σ where
  setClk : Nat → σ → σ
  tickChips : σ → List Nat → σ

/-- `System.tick` (hardware.py lines 80-99), statement for statement:
clk := 1; settle; tick all chips; settle; clk := 0; settle; tick all
chips; settle; settle. -/
def ClockedSys.tick {σ : Type} (T : ClockedSys σ) (s : σ × List Nat) : σ × List Nat :=
  let s1 := (T.setClk 1 s.1, s.2)
  let s2 := (SimSys.eval_combinational T.toSimSys s1).1
  let s3 := (T.tickChips s2.1 s2.2, s2.2)
  let s4 := (SimSys.eval_combinational T.toSimSys s3).1
  let s5 := (T.setClk 0 s4.1, s4.2)
  let s6 := (SimSys.eval_combinational T.toSimSys s5).1
  let s7 := (T.tickChips s6.1 s6.2, s6.2)
  let s8 := (SimSys.eval_combinational T.toSimSys s7).1
  (SimSys.eval_combinational T.toSimSys s8).1

/-- The three kinds of statement `System.tick` executes. -/
inductive TickStep where
  | setClock (b : Nat) : TickStep
  | settle : TickStep
  | tickChips : TickStep
deriving DecidableEq

/-- Effect of one `TickStep` on the system state. -/
def ClockedSys.step {σ : Type} (T : ClockedSys σ) (s : σ × List Nat) : TickStep → σ × List Nat
  | .setClock b => (T.setClk b s.1, s.2)
  | .settle => (SimSys.eval_combinational T.toSimSys s).1
  | .tickChips => (T.tickChips s.1 s.2, s.2)

/-- Run a list of tick steps in order. -/
def ClockedSys.runTrace {σ : Type} (T : ClockedSys σ) (s : σ × List Nat)
    (tr : List TickStep) : σ × List Nat :=
  tr.foldl (ClockedSys.step T) s

/-- The statement sequence of `System.tick` as written in the source. -/
def tickTrace : List TickStep :=
  [.setClock 1, .settle, .tickChips, .settle, .setClock 0, .settle, .tickChips, .settle, .settle]

/-- The six-phase sequence of the specification (one final settle). -/
def specTickTrace : List TickStep :=
  [.setClock 1, .settle, .tickChips, .settle, .setClock 0, .settle, .tickChips, .settle]

/-- Python `sum(read(pin_i) << i for i in range(k))`. -/
def sumPins (k : Nat) (d : Nat → Nat) : Nat :=
  (List.range k).foldl (fun acc i => acc + (d i <<< i)) 0

/-- Python `v = 0; for i in range(k): if read(pin_i) == 1: v |= (1 << i)`. -/
def orPins (k : Nat) (d : Nat → Nat) : Nat :=
  (List.range k).foldl (fun acc i => if d i = 1 then acc ||| (1 <<< i) else acc) 0

/-- `Chip.tick` of the base class is `pass`: chips without an override
(transceivers, adders, decoders, gate packs, memories, the ALU) do not
change any state on `tick()`. -/
def tickDefault {α : Type} (s : α) : α := s

/-- 74HC574 8-bit register: latched byte `val`, previously observed clock
`prev_clk`, and the recorded output states of Q0..Q7. -/
structure IC_74HC574 where
  val : Nat
  prevClk : Nat
  q : Fin 8 → DriveVal

/-- `IC_74HC574.eval` (hardware.py lines 155-159): reads pin `~OE`; when
it is 0 drives every `Qi` with bit i of `val`, else tri-states all. -/
def IC_74HC574.eval (s : IC_74HC574) (nOE : Nat) : IC_74HC574 :=
  if nOE = 0 then { s with q := fun i => .val ((s.val >>> i.val) &&& 1) }
  else { s with q := fun _ => .hiZ }

/-- `IC_74HC574.tick` (hardware.py lines 161-168): reads pins `CLK` and
`D0..D7`; on a rising edge (clk now 1, previously 0) latches the D pins
into `val`; always records `prev_clk := clk`. -/
def IC_74HC574.tick (s : IC_74HC574) (clk : Nat) (d : Nat → Nat) : IC_74HC574 :=
  let s1 := if clk = 1 ∧ s.prevClk = 0 then { s with val := orPins 8 d } else s
  { s1 with prevClk := clk }

/-- 74HC161 4-bit synchronous counter state: count, previous clock, and
the recorded outputs QA..QD and RCO. -/
structure IC_74HC161 where
  val : Nat
  prevClk : Nat
  q : Fin 4 → DriveVal
  rco : DriveVal

/-- `IC_74HC161.eval` (hardware.py lines 177-180): clears `val` when
`~CLR` reads 0 (level-sensitive, inside eval), drives QA..QD from `val`,
and RCO with 1 exactly when `val = 15` and `ENT` reads 1. -/
def IC_74HC161.eval (s : IC_74HC161) (nCLR ent : Nat) : IC_74HC161 :=
  let s1 := if nCLR = 0 then { s with val := 0 } else s
  { s1 with q := fun i => .val ((s1.val >>> i.val) &&& 1),
            rco := .val (if s1.val = 15 ∧ ent = 1 then 1 else 0) }

/-- `IC_74HC161.tick` (hardware.py lines 182-193): on a rising clock
edge, if not being cleared: load A..D when `~LOAD` reads 0, else count up
modulo 16 when ENP and ENT both read 1; always records `prev_clk`. -/
def IC_74HC161.tick (s : IC_74HC161) (clk nCLR nLOAD enp ent : Nat) (d : Nat → Nat) :
    IC_74HC161 :=
  let s1 :=
    if clk = 1 ∧ s.prevClk = 0 then
      if nCLR ≠ 0 then
        if nLOAD = 0 then { s with val := orPins 4 d }
        else if enp = 1 ∧ ent = 1 then { s with val := (s.val + 1) &&& 0x0F }
        else s
      else s
    else s
  { s1 with prevClk := clk }

/-- 74HC193 4-bit up/down counter state: count, previous UP/DOWN levels,
and the recorded outputs QA..QD, `~CO`, `~BO`. -/
structure IC_74HC193 where
  val : Nat
  prevUp : Nat
  prevDn : Nat
  q : Fin 4 → DriveVal
  nCO : DriveVal
  nBO : DriveVal

/-- `IC_74HC193.eval` (hardware.py lines 203-207): clears `val` when CLR
reads 1, drives QA..QD from `val`, `~CO` low exactly at (val = 15 and UP
low), `~BO` low exactly at (val = 0 and DOWN low). -/
def IC_74HC193.eval (s : IC_74HC193) (clr up down : Nat) : IC_74HC193 :=
  let s1 := if clr = 1 then { s with val := 0 } else s
  { s1 with q := fun i => .val ((s1.val >>> i.val) &&& 1),
            nCO := .val (if s1.val = 15 ∧ up = 0 then 0 else 1),
            nBO := .val (if s1.val = 0 ∧ down = 0 then 0 else 1) }

/-- `IC_74HC193.tick` (hardware.py lines 209-224): when CLR reads 0,
either load A..D (`~LOAD` low) or respond to rising edges on UP (count
up) and DOWN (count down), both checks performed in sequence; always
records the observed UP/DOWN levels.  Python `(val - 1) & 0x0F` on the
two's-complement integer is `(val - 1) mod 16` over `Int`. -/
def IC_74HC193.tick (s : IC_74HC193) (up down clr nLOAD : Nat) (d : Nat → Nat) :
    IC_74HC193 :=
  let s1 :=
    if clr = 0 then
      if nLOAD = 0 then { s with val := orPins 4 d }
      else
        let sa := if up = 1 ∧ s.prevUp = 0 ∧ down = 1 then
            { s with val := (s.val + 1) &&& 0x0F } else s
        if down = 1 ∧ s.prevDn = 0 ∧ up = 1 then
          { sa with val := (((sa.val : Int) - 1) % 16).toNat } else sa
    else s
  { s1 with prevUp := up, prevDn := down }

/-- 74HC245 transceiver: recorded output states of A0..A7_OUT and
B0..B7_OUT. -/
structure IC_74HC245 where
  aOut : Fin 8 → DriveVal
  bOut : Fin 8 → DriveVal

/-- `IC_74HC245.eval` (hardware.py lines 231-244): when `~OE` reads 0,
DIR = 1 drives the B side from the A inputs (A side tri-stated) and
DIR ≠ 1 drives the A side from the B inputs; when disabled both sides
are tri-stated. -/
def IC_74HC245.eval (st : IC_74HC245) (dir nOE : Nat) (aIn bIn : Nat → Nat) : IC_74HC245 :=
  if nOE = 0 then
    if dir = 1 then { st with aOut := fun _ => .hiZ, bOut := fun i => .val (aIn i.val) }
    else { st with bOut := fun _ => .hiZ, aOut := fun i => .val (bIn i.val) }
  else { st with aOut := fun _ => .hiZ, bOut := fun _ => .hiZ }

/-- 74HC283 4-bit adder: recorded output states of S1..S4 (indexed 0..3)
and C4. -/
structure IC_74HC283 where
  s : Fin 4 → DriveVal
  c4 : DriveVal

/-- `IC_74HC283.eval` (hardware.py lines 250-255): sum of the two 4-bit
operands (pins A1..A4 and B1..B4, indexed 0..3 here) plus carry-in. -/
def IC_74HC283.eval (st : IC_74HC283) (a b : Nat → Nat) (c0 : Nat) : IC_74HC283 :=
  let res := sumPins 4 a + sumPins 4 b + c0
  { st with s := fun i => .val ((res >>> i.val) &&& 1), c4 := .val ((res >>> 4) &&& 1) }

/-- 74HC138 3-to-8 decoder: recorded output states of `~Y0..~Y7`. -/
structure IC_74HC138 where
  y : Fin 8 → DriveVal

/-- `IC_74HC138.eval` (hardware.py lines 261-264): enabled when G1 reads
1 and both `~G2A`, `~G2B` read 0; drives the selected output low, all
others high. -/
def IC_74HC138.eval (st : IC_74HC138) (a b c nG2A nG2B g1 : Nat) : IC_74HC138 :=
  { st with y := fun i =>
      DriveVal.val (if (g1 = 1 ∧ nG2A = 0 ∧ nG2B = 0) ∧ i.val = ((c <<< 2) ||| (b <<< 1) ||| a)
            then 0 else 1) }

/-- 74HC154 4-to-16 decoder: recorded output states of `~Y0..~Y15`. -/
structure IC_74HC154 where
  y : Fin 16 → DriveVal

/-- `IC_74HC154.eval` (hardware.py lines 270-273): enabled when both
`~G1` and `~G2` read 0; drives the selected output low, all others
high. -/
def IC_74HC154.eval (st : IC_74HC154) (a b c d nG1 nG2 : Nat) : IC_74HC154 :=
  { st with y := fun i =>
      DriveVal.val (if (nG1 = 0 ∧ nG2 = 0) ∧ i.val = ((d <<< 3) ||| (c <<< 2) ||| (b <<< 1) ||| a)
            then 0 else 1) }

/-- 74HC04 hex inverter: recorded output states of 1Y..6Y (indexed
0..5). -/
structure IC_74HC04 where
  y : Fin 6 → DriveVal

/-- `IC_74HC04.eval` (hardware.py lines 279-280): each gate outputs
`1 - read(input)` (the logic levels used by the design are 0 and 1, where
Python and Nat subtraction agree). -/
def IC_74HC04.eval (st : IC_74HC04) (a : Nat → Nat) : IC_74HC04 :=
  { st with y := fun i => .val (1 - a i.val) }

/-- 74HC08 quad AND: recorded output states of 1Y..4Y (indexed 0..3). -/
structure IC_74HC08 where
  y : Fin 4 → DriveVal

/-- `IC_74HC08.eval` (hardware.py lines 286-287). -/
def IC_74HC08.eval (st : IC_74HC08) (a b : Nat → Nat) : IC_74HC08 :=
  { st with y := fun i => .val (a i.val &&& b i.val) }

/-- 74HC32 quad OR: recorded output states of 1Y..4Y (indexed 0..3). -/
structure IC_74HC32 where
  y : Fin 4 → DriveVal

/-- `IC_74HC32.eval` (hardware.py lines 293-294). -/
def IC_74HC32.eval (st : IC_74HC32) (a b : Nat → Nat) : IC_74HC32 :=
  { st with y := fun i => .val (a i.val ||| b i.val) }

/-- 74HC00 quad NAND (defined inside `build_cpu`, hardware.py lines
569-574): recorded output states of 1Y..4Y (indexed 0..3). -/
structure IC_74HC00 where
  y : Fin 4 → DriveVal

/-- `IC_74HC00.eval` (hardware.py lines 573-574). -/
def IC_74HC00.eval (st : IC_74HC00) (a b : Nat → Nat) : IC_74HC00 :=
  { st with y := fun i => .val (1 - (a i.val &&& b i.val)) }

/-- 28C256 32KB EEPROM: the `bytearray(32768)` is modelled as a function
(updates are pointwise; the address, a sum of 15 address-pin bits, never
exceeds 32767), plus the recorded output states of Q0..Q7. -/
structure IC_28C256 where
  mem : Nat → Nat
  q : Fin 8 → DriveVal

/-- `IC_28C256.eval` (hardware.py lines 304-314): level-sensitive write
when `~CE` and `~WE` both read 0 (the addressed byte is set from the D
pins); combinational read when `~CE`, `~OE` read 0 and `~WE` reads 1
(drives Q0..Q7 from the addressed byte, after the write), else all Q
outputs tri-stated.  The write branch precedes the read branch, as in
the source. -/
def IC_28C256.eval (st : IC_28C256) (nCE nOE nWE : Nat) (a d : Nat → Nat) : IC_28C256 :=
  let addr := sumPins 15 a
  let st1 :=
    if nCE = 0 ∧ nWE = 0 then
      { st with mem := fun x => if x = addr then sumPins 8 d else st.mem x }
    else st
  if nCE = 0 ∧ nOE = 0 ∧ nWE = 1 then
    { st1 with q := fun i => .val ((st1.mem addr >>> i.val) &&& 1) }
  else
    { st1 with q := fun _ => .hiZ }

/-- `IC_62256` (32KB SRAM) subclasses `IC_28C256` with identical
behaviour (hardware.py lines 316-318). -/
abbrev IC_62256 := IC_28C256

/-- Result (before the final `res &= 0xFF`) and carry of the selected
ALU operation (hardware.py lines 330-338).  `res` is an integer exactly
as in Python: `a - b` may be negative; Python `~a` is `-a - 1` and
`& 0xFF` on a Python int is `% 256` (written with `Int.emod`, which is
non-negative here). -/
def aluRes (a b op : Nat) : Int × Nat :=
  if op = 0 then ((a : Int) + b, if 255 < a + b then 1 else 0)
  else if op = 1 then ((a : Int) - b, if (a : Int) - b < 0 then 1 else 0)
  else if op = 2 then (((a &&& b : Nat) : Int), 0)
  else if op = 3 then (((a ||| b : Nat) : Int), 0)
  else if op = 4 then (((a ^^^ b : Nat) : Int), 0)
  else if op = 5 then ((-(a : Int) - 1) % 256, 0)
  else if op = 6 then ((((a <<< 1) &&& 0xFF : Nat) : Int), (a >>> 7) &&& 1)
  else if op = 7 then ((((a >>> 1) &&& 0xFF : Nat) : Int), a &&& 1)
  else (0, 0)

/-- The result byte after `res &= 0xFF` (hardware.py line 339). -/
def aluByte (a b op : Nat) : Nat := ((aluRes a b op).1 % 256).toNat

/-- GAL22V10 ALU PLD: recorded output states of Q0..Q7 and the flag
outputs Z, C, N. -/
structure GAL_ALU where
  q : Fin 8 → DriveVal
  z : DriveVal
  c : DriveVal
  n : DriveVal

/-- `GAL_ALU.eval` (hardware.py lines 326-346): operands and opcode are
the bit-sums of the A, B and OP pins; the flags Z, C, N are written
unconditionally; Q0..Q7 are driven from the result byte only while `~OE`
reads 0, else tri-stated. -/
def GAL_ALU.eval (st : GAL_ALU) (aPins bPins opPins : Nat → Nat) (nOE : Nat) : GAL_ALU :=
  let a := sumPins 8 aPins
  let b := sumPins 8 bPins
  let op := sumPins 3 opPins
  let res := aluByte a b op
  { st with
      z := .val (if res = 0 then 1 else 0),
      c := .val (aluRes a b op).2,
      n := .val ((res >>> 7) &&& 1),
      q := if nOE = 0 then (fun i => .val ((res >>> i.val) &&& 1)) else fun _ => .hiZ }

/-! ## Theorems -/

/-- Folding the driver values leaves `None` when no driver is driving. -/
theorem resolveDrivers_undriven (vs : List DriveVal)
    (h : ∀ v ∈ vs, v = DriveVal.pyNone ∨ v = DriveVal.hiZ) :
    resolveDrivers vs = Option.none := by
  induction vs with
  | nil => rfl
  | cons v t ih =>
    have hv := h v (List.mem_cons_self v t)
    have ht : ∀ w ∈ t, w = DriveVal.pyNone ∨ w = DriveVal.hiZ :=
      fun w hw => h w (List.mem_cons_of_mem v hw)
    rcases hv with hv | hv <;> subst hv <;> simpa [resolveDrivers] using ih ht

/-- C7: for any net on which no registered driver is currently driving
(no drivers at all, or every driver callback returning `None` or `'Z'`),
`Net.eval` sets `next_state` to the configured pull value when one is
set, and to 0 otherwise — independent of the net's current and previous
state, hence of its history. -/
theorem net_eval_undriven (env : String → String → DriveVal) (n : Net)
    (h : ∀ d ∈ n.drivers,
      Driver.value env d = DriveVal.pyNone ∨ Driver.value env d = DriveVal.hiZ) :
    (Net.eval env n).nextState = match n.pull with | some p => p | Option.none => 0 := by
  have hres : resolveDrivers (n.drivers.map (Driver.value env)) = Option.none :=
    resolveDrivers_undriven _ (by
      intro v hv
      rcases List.mem_map.mp hv with ⟨d, hd, rfl⟩
      exact h d hd)
  simp [Net.eval, hres]

/-- Witness for `net_eval_undriven`: a net with pull 1, stale states 5
and 7, and two non-driving drivers evaluates `next_state` to the pull. -/
theorem net_eval_undriven_witness :
    (Net.eval (fun _ _ => DriveVal.hiZ)
      { name := "N", pull := some 1, state := 5, nextState := 7,
        drivers := [Driver.ext DriveVal.pyNone, Driver.pinRead "U1" "Q0"] }).nextState = 1 :=
  net_eval_undriven _ _ (by decide)

/-- C1 (code bug witness): with two simultaneously driving drivers that
disagree — "U1".Q0 recorded as 0 and "U2".Q0 recorded as 1 — `Net.eval`
silently commits the last-seen driving value (1 for registration order
[U1, U2], 0 for [U2, U1]) and produces no contention signal or error: the
`if val is not None and val != v:` branch in the source is the no-op
`pass  # Bus contention`. -/
theorem net_eval_bus_contention_silent :
    (Net.eval (fun r _ => if r = "U1" then DriveVal.val 0 else DriveVal.val 1)
      { name := "BUS", pull := some 0, state := 0, nextState := 0,
        drivers := [Driver.pinRead "U1" "Q0", Driver.pinRead "U2" "Q0"] }).nextState = 1
  ∧ (Net.eval (fun r _ => if r = "U1" then DriveVal.val 0 else DriveVal.val 1)
      { name := "BUS", pull := some 0, state := 0, nextState := 0,
        drivers := [Driver.pinRead "U2" "Q0", Driver.pinRead "U1" "Q0"] }).nextState = 0 :=
  ⟨by decide, by decide⟩

/-- C8: wiring an undeclared pin fails with a diagnostic naming the pin
and the chip (reference and part name), and produces no updated state
(the source raises before any mutation); wiring a declared pin always
succeeds, updates the connection map and the wiring log, and appends a
driver for the pin to the net's driver list exactly when the pin is a
declared output. -/
theorem wire_spec (chip : Chip) (pin : String) (net : Net)
    (log : List (String × String × String)) :
    (pin ∉ chip.inputs ∧ pin ∉ chip.outputs →
      System.wire chip pin net log =
        Except.error
          ("Pin " ++ pin ++ " not found on " ++ chip.ref ++ " (" ++ chip.partName ++ ")"))
  ∧ (pin ∈ chip.inputs ∨ pin ∈ chip.outputs →
      ∃ chip2 net2 log2,
        System.wire chip pin net log = Except.ok (chip2, net2, log2)
        ∧ chip2.connections = (pin, net.name) :: chip.connections
        ∧ chip2.ref = chip.ref ∧ chip2.inputs = chip.inputs ∧ chip2.outputs = chip.outputs
        ∧ log2 = log ++ [(chip.ref, pin, net.name)]
        ∧ (pin ∈ chip.outputs →
            net2 = { net with drivers := net.drivers ++ [Driver.pinRead chip.ref pin] })
        ∧ (pin ∉ chip.outputs → net2 = net)) := by
  constructor
  · intro h
    simp [System.wire, h.1, h.2]
  · intro h
    have hcond : ¬(pin ∉ chip.inputs ∧ pin ∉ chip.outputs) := by tauto
    by_cases ho : pin ∈ chip.outputs
    · exact ⟨{ chip with connections := (pin, net.name) :: chip.connections },
             { net with drivers := net.drivers ++ [Driver.pinRead chip.ref pin] },
             log ++ [(chip.ref, pin, net.name)],
             by simp [System.wire, hcond, ho], rfl, rfl, rfl, rfl, rfl,
             fun _ => rfl, fun hno => absurd ho hno⟩
    · have hi : pin ∈ chip.inputs := h.resolve_right ho
      exact ⟨{ chip with connections := (pin, net.name) :: chip.connections },
             net, log ++ [(chip.ref, pin, net.name)],
             by simp [System.wire, hi, ho], rfl, rfl, rfl, rfl, rfl,
             fun hyes => absurd hyes ho, fun _ => rfl⟩

/-- Witness for `wire_spec`: wiring undeclared pin "D9" on a register
chip fails with the exact diagnostic; wiring declared output "Q0"
succeeds and registers a driver on the net. -/
theorem wire_spec_witness :
    System.wire
      { ref := "U9", partName := "74HC574", inputs := ["CLK"], outputs := ["Q0"],
        connections := [] } "D9"
      { name := "DATA0", pull := Option.none, state := 0, nextState := 0, drivers := [] } []
      = Except.error "Pin D9 not found on U9 (74HC574)"
  ∧ ∃ chip2 net2 log2,
      System.wire
        { ref := "U9", partName := "74HC574", inputs := ["CLK"], outputs := ["Q0"],
          connections := [] } "Q0"
        { name := "DATA0", pull := Option.none, state := 0, nextState := 0, drivers := [] } []
        = Except.ok (chip2, net2, log2)
      ∧ chip2.connections = [("Q0", "DATA0")]
      ∧ net2.drivers = [Driver.pinRead "U9" "Q0"] := by
  constructor
  · exact (wire_spec _ "D9" _ []).1 (by decide)
  · obtain ⟨chip2, net2, log2, heq, hconn, _, _, _, _, hdrv, _⟩ :=
      (wire_spec
        { ref := "U9", partName := "74HC574", inputs := ["CLK"], outputs := ["Q0"],
          connections := [] } "Q0"
        { name := "DATA0", pull := Option.none, state := 0, nextState := 0, drivers := [] }
        []).2 (Or.inr (by decide))
    exact ⟨chip2, net2, log2, heq, by rw [hconn], by rw [hdrv (by decide)]; simp⟩

/-- The settling loop never performs more passes than its fuel. -/
theorem settleAux_passes_le {σ : Type} (S : SimSys σ) (n : Nat) :
    ∀ s : σ × List Nat, (S.settleAux n s).2.2 ≤ n := by
  induction n with
  | zero => intro s; exact Nat.le_refl 0
  | succ n ih =>
    intro s
    simp only [SimSys.settleAux]
    split
    · exact Nat.succ_le_succ (Nat.zero_le n)
    · exact Nat.succ_le_succ (ih _)

/-- The state the settling loop returns is the pass-iterate of the start
state, iterated as many times as passes were performed. -/
theorem settleAux_state_eq {σ : Type} (S : SimSys σ) (n : Nat) :
    ∀ s : σ × List Nat, (S.settleAux n s).1 = S.onePass^[(S.settleAux n s).2.2] s := by
  induction n with
  | zero => intro s; rfl
  | succ n ih =>
    intro s
    simp only [SimSys.settleAux]
    split
    · rfl
    · rw [Function.iterate_succ_apply]
      exact ih _

/-- Every pass strictly before the last performed pass changed the net
states (the loop returns as soon as a pass changes nothing). -/
theorem settleAux_changed_before {σ : Type} (S : SimSys σ) (n : Nat) :
    ∀ (s : σ × List Nat) (j : Nat), j + 1 < (S.settleAux n s).2.2 →
      (S.onePass^[j + 1] s).2 ≠ (S.onePass^[j] s).2 := by
  induction n with
  | zero =>
    intro s j h
    exact absurd h (by simp [SimSys.settleAux])
  | succ n ih =>
    intro s j h
    revert h
    simp only [SimSys.settleAux]
    split
    · intro h
      have h' : j + 1 < 1 := h
      omega
    · rename_i hne
      intro h
      cases j with
      | zero => simpa using hne
      | succ j =>
        have h2 : j + 1 < (S.settleAux n (S.onePass s)).2.2 := Nat.lt_of_succ_lt_succ h
        have h3 := ih (S.onePass s) j h2
        rw [Function.iterate_succ_apply S.onePass (j + 1) s]
        rw [Function.iterate_succ_apply S.onePass j s]
        exact h3

/-- If the loop stopped without the warning then at least one pass ran
and the last pass changed nothing. -/
theorem settleAux_stop {σ : Type} (S : SimSys σ) (n : Nat) :
    ∀ s : σ × List Nat, (S.settleAux n s).2.1 = false →
      1 ≤ (S.settleAux n s).2.2 ∧
      (S.onePass^[(S.settleAux n s).2.2] s).2
        = (S.onePass^[(S.settleAux n s).2.2 - 1] s).2 := by
  induction n with
  | zero =>
    intro s h
    exact absurd h (by simp [SimSys.settleAux])
  | succ n ih =>
    intro s h
    revert h
    simp only [SimSys.settleAux]
    split
    · rename_i heq
      intro _
      exact ⟨Nat.le_refl 1, by simpa using heq⟩
    · intro h
      obtain ⟨h1, h2⟩ := ih (S.onePass s) h
      refine ⟨Nat.succ_le_succ (Nat.zero_le _), ?_⟩
      have hk : (S.settleAux n (S.onePass s)).2.2
          = ((S.settleAux n (S.onePass s)).2.2 - 1) + 1 :=
        (Nat.succ_pred_eq_of_pos h1).symm
      calc (S.onePass^[(S.settleAux n (S.onePass s)).2.2 + 1] s).2
          = (S.onePass^[(S.settleAux n (S.onePass s)).2.2] (S.onePass s)).2 := by
            rw [Function.iterate_succ_apply]
        _ = (S.onePass^[(S.settleAux n (S.onePass s)).2.2 - 1] (S.onePass s)).2 := h2
        _ = (S.onePass^[((S.settleAux n (S.onePass s)).2.2 - 1) + 1] s).2 := by
            rw [Function.iterate_succ_apply]
        _ = (S.onePass^[(S.settleAux n (S.onePass s)).2.2 + 1 - 1] s).2 := by
            rw [Nat.add_sub_cancel, ← hk]

/-- If the warning fired then the fuel was exhausted: exactly `n` passes
ran and every one of them changed the net states. -/
theorem settleAux_warn_true {σ : Type} (S : SimSys σ) (n : Nat) :
    ∀ s : σ × List Nat, (S.settleAux n s).2.1 = true →
      (S.settleAux n s).2.2 = n ∧
      ∀ j < n, (S.onePass^[j + 1] s).2 ≠ (S.onePass^[j] s).2 := by
  induction n with
  | zero =>
    intro s _
    exact ⟨rfl, fun j hj => absurd hj (by omega)⟩
  | succ n ih =>
    intro s h
    revert h
    simp only [SimSys.settleAux]
    split
    · intro h
      cases h
    · rename_i hne
      intro h
      obtain ⟨hk, hall⟩ := ih (S.onePass s) h
      refine ⟨?_, ?_⟩
      · show (S.settleAux n (S.onePass s)).2.2 + 1 = n + 1
        omega
      · intro j hj
        cases j with
        | zero => simpa using hne
        | succ j =>
          rw [Function.iterate_succ_apply S.onePass (j + 1) s]
          rw [Function.iterate_succ_apply S.onePass j s]
          exact hall j (Nat.lt_of_succ_lt_succ hj)

/-- C2: `eval_combinational` performs between 1 and 30 full passes (each
pass: evaluate every chip, then evaluate and commit every net); the
returned state is the state after the last performed pass; the loop
returns as soon as a full pass changes no net's committed value (every
earlier pass changed something, and when no warning fired the final pass
changed nothing); if the warning flag — modelling the printed
`"WARNING: Combinational loop detected!"` line — is set then all 30
passes ran and each changed something, and the call still returns the
state computed by pass 30 (the function is total, so it never blocks or
raises). -/
theorem eval_combinational_spec {σ : Type} (S : SimSys σ) (s : σ × List Nat) :
    (1 ≤ (S.eval_combinational s).2.2 ∧ (S.eval_combinational s).2.2 ≤ 30)
  ∧ (S.eval_combinational s).1 = S.onePass^[(S.eval_combinational s).2.2] s
  ∧ (∀ j, j + 1 < (S.eval_combinational s).2.2 →
      (S.onePass^[j + 1] s).2 ≠ (S.onePass^[j] s).2)
  ∧ ((S.eval_combinational s).2.1 = false →
      (S.onePass^[(S.eval_combinational s).2.2] s).2
        = (S.onePass^[(S.eval_combinational s).2.2 - 1] s).2)
  ∧ ((S.eval_combinational s).2.1 = true →
      (S.eval_combinational s).2.2 = 30 ∧
      ∀ j < 30, (S.onePass^[j + 1] s).2 ≠ (S.onePass^[j] s).2) := by
  have hpos : 1 ≤ (S.eval_combinational s).2.2 := by
    show 1 ≤ (S.settleAux 30 s).2.2
    cases hw : (S.settleAux 30 s).2.1
    · exact (settleAux_stop S 30 s hw).1
    · have h30 := (settleAux_warn_true S 30 s hw).1
      omega
  exact ⟨⟨hpos, settleAux_passes_le S 30 s⟩, settleAux_state_eq S 30 s,
    fun j hj => settleAux_changed_before S 30 s j hj,
    fun hw => (settleAux_stop S 30 s hw).2,
    fun hw => settleAux_warn_true S 30 s hw⟩

/-- Witness for `eval_combinational_spec` on a one-chip, zero-net system
that settles immediately: the pass bound holds and the warning-free stop
condition is discharged concretely. -/
theorem eval_combinational_spec_witness :
    (SimSys.eval_combinational (σ := Nat) ⟨fun c _ => c, fun _ => []⟩ (0, [])).2.2 ≤ 30
  ∧ ((SimSys.onePass (σ := Nat) ⟨fun c _ => c, fun _ => []⟩)^[
        (SimSys.eval_combinational (σ := Nat) ⟨fun c _ => c, fun _ => []⟩ (0, [])).2.2]
        (0, [])).2
      = ((SimSys.onePass (σ := Nat) ⟨fun c _ => c, fun _ => []⟩)^[
        (SimSys.eval_combinational (σ := Nat) ⟨fun c _ => c, fun _ => []⟩ (0, [])).2.2 - 1]
        (0, [])).2 :=
  ⟨(eval_combinational_spec _ _).1.2, (eval_combinational_spec _ _).2.2.2.1 rfl⟩

/-- A state on which one settling pass is the identity is a fixed point
of the pass function once the chip evaluations are idempotent. -/
theorem onePass_fixed_of {σ : Type} (S : SimSys σ)
    (Hidem : ∀ c nets, S.chipEval (S.chipEval c nets) nets = S.chipEval c nets)
    (u : σ × List Nat) (h : (S.onePass u).2 = u.2) :
    S.onePass (S.onePass u) = S.onePass u := by
  have hc : S.chipEval (S.onePass u).1 (S.onePass u).2 = (S.onePass u).1 := by
    show S.chipEval (S.chipEval u.1 u.2) (S.onePass u).2 = S.chipEval u.1 u.2
    rw [h]
    exact Hidem u.1 u.2
  show (S.chipEval (S.onePass u).1 (S.onePass u).2,
        S.netNext (S.chipEval (S.onePass u).1 (S.onePass u).2)) = S.onePass u
  rw [hc]
  rfl

/-- A warning-free settle ends in a fixed point of the pass function
provided the chip evaluations are idempotent. -/
theorem settle_fixed {σ : Type} (S : SimSys σ)
    (Hidem : ∀ c nets, S.chipEval (S.chipEval c nets) nets = S.chipEval c nets)
    (s : σ × List Nat) (h : (S.eval_combinational s).2.1 = false) :
    S.onePass (S.eval_combinational s).1 = (S.eval_combinational s).1 := by
  have h' : (S.settleAux 30 s).2.1 = false := h
  obtain ⟨h1, h2⟩ := settleAux_stop S 30 s h'
  have hst : (S.settleAux 30 s).1
      = S.onePass^[(S.settleAux 30 s).2.2] s := settleAux_state_eq S 30 s
  obtain ⟨m, hm⟩ : ∃ m, (S.settleAux 30 s).2.2 = m + 1 :=
    ⟨(S.settleAux 30 s).2.2 - 1, by omega⟩
  rw [hm] at hst h2
  simp only [Nat.add_sub_cancel] at h2
  rw [Function.iterate_succ_apply'] at hst h2
  show S.onePass (S.settleAux 30 s).1 = (S.settleAux 30 s).1
  rw [hst]
  exact onePass_fixed_of S Hidem (S.onePass^[m] s) h2

/-- One settle step with positive fuel at a fixed point of the pass
function stops after a single unchanged pass. -/
theorem settleAux_succ_fixed {σ : Type} (S : SimSys σ) (n : Nat) (t : σ × List Nat)
    (h : S.onePass t = t) : S.settleAux (n + 1) t = (t, false, 1) := by
  simp [SimSys.settleAux, h]

/-- Settling at a fixed point of the pass function converges in one
unchanged pass. -/
theorem eval_combinational_at_fixed {σ : Type} (S : SimSys σ) (t : σ × List Nat)
    (h : S.onePass t = t) : S.eval_combinational t = (t, false, 1) :=
  settleAux_succ_fixed S 29 t h

/-- C3: `System.tick` executes, statement for statement, the sequence
drive clock to 1; settle; tick every chip; settle; drive clock to 0;
settle; tick every chip; settle; settle — so every chip's `tick()` is
invoked exactly twice per clock period, each time right after a full
combinational settle at the current clock level, and the newly latched
state is settled again before `tick()` returns.  Moreover, whenever the
chip evaluations are idempotent (as holds for every chip in this
catalog) and the settle after the second chip-tick converges, the
trailing ninth settle is a no-op and `tick` equals the six-phase sequence
of the specification. -/
theorem tick_spec {σ : Type} (T : ClockedSys σ) (s : σ × List Nat) :
    ClockedSys.tick T s = ClockedSys.runTrace T s tickTrace
  ∧ tickTrace = [TickStep.setClock 1, TickStep.settle, TickStep.tickChips, TickStep.settle,
      TickStep.setClock 0, TickStep.settle, TickStep.tickChips, TickStep.settle,
      TickStep.settle]
  ∧ tickTrace.countP (fun e => e == TickStep.tickChips) = 2
  ∧ specTickTrace = List.take 8 tickTrace
  ∧ ((∀ c nets, T.chipEval (T.chipEval c nets) nets = T.chipEval c nets) →
      (SimSys.eval_combinational T.toSimSys
        (ClockedSys.runTrace T s (List.take 7 specTickTrace))).2.1 = false →
      ClockedSys.tick T s = ClockedSys.runTrace T s specTickTrace) := by
  refine ⟨rfl, rfl, rfl, rfl, ?_⟩
  intro Hidem Hconv
  have hfix := settle_fixed T.toSimSys Hidem
    (ClockedSys.runTrace T s (List.take 7 specTickTrace)) Hconv
  have hid := eval_combinational_at_fixed T.toSimSys _ hfix
  show (SimSys.eval_combinational T.toSimSys
      (SimSys.eval_combinational T.toSimSys
        (ClockedSys.runTrace T s (List.take 7 specTickTrace))).1).1
    = ClockedSys.runTrace T s specTickTrace
  rw [hid]
  rfl

/-- Witness for `tick_spec` on a trivially settling system: both
hypotheses of the final conjunct are discharged concretely. -/
theorem tick_spec_witness :
    ClockedSys.tick (σ := Nat) ⟨⟨fun c _ => c, fun _ => []⟩, fun _ c => c, fun c _ => c⟩ (0, [])
      = ClockedSys.runTrace (σ := Nat) ⟨⟨fun c _ => c, fun _ => []⟩, fun _ c => c, fun c _ => c⟩
          (0, []) specTickTrace :=
  (tick_spec _ _).2.2.2.2 (fun _ _ => rfl) rfl

/-- Unfolding one step of the `|=` accumulation loop. -/
theorem orPins_succ (k : Nat) (d : Nat → Nat) :
    orPins (k + 1) d = if d k = 1 then orPins k d ||| (1 <<< k) else orPins k d := by
  simp [orPins, List.range_succ]

/-- Bit `j` of the `|=` accumulation is set exactly when pin `j` exists
and reads 1. -/
theorem orPins_testBit (k : Nat) (d : Nat → Nat) (j : Nat) :
    (orPins k d).testBit j = true ↔ (j < k ∧ d j = 1) := by
  induction k with
  | zero => simp [orPins]
  | succ k ih =>
    rw [orPins_succ]
    by_cases hd : d k = 1
    · rw [if_pos hd, Nat.one_shiftLeft, Nat.testBit_lor]
      simp only [Bool.or_eq_true, ih, Nat.testBit_two_pow, decide_eq_true_eq]
      constructor
      · rintro (⟨h1, h2⟩ | h3)
        · exact ⟨by omega, h2⟩
        · subst h3
          exact ⟨by omega, hd⟩
      · rintro ⟨h1, h2⟩
        by_cases hj : j = k
        · subst hj
          exact Or.inr rfl
        · exact Or.inl ⟨by omega, h2⟩
    · rw [if_neg hd, ih]
      constructor
      · rintro ⟨h1, h2⟩
        exact ⟨by omega, h2⟩
      · rintro ⟨h1, h2⟩
        refine ⟨?_, h2⟩
        rcases Nat.lt_succ_iff_lt_or_eq.mp h1 with h | h
        · exact h
        · subst h
          exact absurd h2 hd

/-- Extracting bit `i` of the `|=` accumulation with shift-and-mask. -/
theorem orPins_bit (k : Nat) (d : Nat → Nat) (i : Nat) (h : i < k) :
    (orPins k d >>> i) &&& 1 = if d i = 1 then 1 else 0 := by
  have ht := orPins_testBit k d i
  have hb : (orPins k d).testBit i = decide (orPins k d / 2 ^ i % 2 = 1) :=
    Nat.testBit_to_div_mod
  rw [Nat.and_one_is_mod, Nat.shiftRight_eq_div_pow]
  by_cases hd : d i = 1
  · have h1 : (orPins k d).testBit i = true := ht.mpr ⟨h, hd⟩
    rw [hb] at h1
    have h2 := of_decide_eq_true h1
    simp [hd, h2]
  · have h1 : ¬(orPins k d).testBit i = true := fun hc => hd (ht.mp hc).2
    rw [hb] at h1
    have h2 : ¬orPins k d / 2 ^ i % 2 = 1 := fun hc => h1 (decide_eq_true hc)
    have h3 : orPins k d / 2 ^ i % 2 = 0 := by omega
    simp [hd, h3]

/-- An 8-bit value is reconstructed from its bits by the pin sum. -/
theorem sumPins_bits8 (v : Nat) (hv : v < 256) :
    sumPins 8 (fun i => (v >>> i) &&& 1) = v := by
  simp only [sumPins, show List.range 8 = [0, 1, 2, 3, 4, 5, 6, 7] from rfl,
    List.foldl_cons, List.foldl_nil, Nat.shiftRight_eq_div_pow, Nat.and_one_is_mod,
    Nat.shiftLeft_eq]
  norm_num
  omega

/-- A 15-bit value is reconstructed from its bits by the pin sum. -/
theorem sumPins_bits15 (v : Nat) (hv : v < 32768) :
    sumPins 15 (fun i => (v >>> i) &&& 1) = v := by
  simp only [sumPins,
    show List.range 15 = [0, 1, 2, 3, 4, 5, 6, 7, 8, 9, 10, 11, 12, 13, 14] from rfl,
    List.foldl_cons, List.foldl_nil, Nat.shiftRight_eq_div_pow, Nat.and_one_is_mod,
    Nat.shiftLeft_eq]
  norm_num
  omega

/-- Writing the same value twice at the same address is one write. -/
theorem update_update (m : Nat → Nat) (addr v : Nat) :
    (fun x => if x = addr then v else (fun y => if y = addr then v else m y) x)
      = fun x => if x = addr then v else m x := by
  funext x
  by_cases hx : x = addr <;> simp [hx]

/-- Idempotence of `IC_74HC574.eval` at unchanged inputs. -/
theorem eval574_idem (s : IC_74HC574) (nOE : Nat) :
    (s.eval nOE).eval nOE = s.eval nOE := by
  by_cases h : nOE = 0 <;> simp [IC_74HC574.eval, h]

/-- Idempotence of `IC_74HC161.eval` at unchanged inputs (the `~CLR`
clear path writes `val := 0` again on the second call). -/
theorem eval161_idem (s : IC_74HC161) (nCLR ent : Nat) :
    (s.eval nCLR ent).eval nCLR ent = s.eval nCLR ent := by
  by_cases h : nCLR = 0 <;> simp [IC_74HC161.eval, h]

/-- Idempotence of `IC_74HC193.eval` at unchanged inputs (the CLR clear
path writes `val := 0` again on the second call). -/
theorem eval193_idem (s : IC_74HC193) (clr up down : Nat) :
    (s.eval clr up down).eval clr up down = s.eval clr up down := by
  by_cases h : clr = 1 <;> simp [IC_74HC193.eval, h]

/-- Idempotence of `IC_28C256.eval` at unchanged inputs (the
level-sensitive write path stores the same byte at the same address on
the second call). -/
theorem eval28_idem (st : IC_28C256) (nCE nOE nWE : Nat) (a d : Nat → Nat) :
    (st.eval nCE nOE nWE a d).eval nCE nOE nWE a d = st.eval nCE nOE nWE a d := by
  by_cases hw : nCE = 0 ∧ nWE = 0
  · obtain ⟨hce, hwe⟩ := hw
    subst hce
    subst hwe
    by_cases hrd : nOE = 0
    · simp [IC_28C256.eval, hrd, update_update]
    · simp [IC_28C256.eval, hrd, update_update]
  · by_cases hrd : nCE = 0 ∧ nOE = 0 ∧ nWE = 1
    · simp [IC_28C256.eval, hw, hrd]
    · simp [IC_28C256.eval, hw, hrd]

/-- Frame property of `IC_74HC574.tick`: the recorded Q outputs are
untouched. -/
theorem tick574_frame (s : IC_74HC574) (clk : Nat) (d : Nat → Nat) :
    (s.tick clk d).q = s.q := by
  by_cases h : clk = 1 ∧ s.prevClk = 0 <;> simp [IC_74HC574.tick, h]

/-- Frame property of `IC_74HC161.tick`: the recorded outputs are
untouched. -/
theorem tick161_frame (s : IC_74HC161) (clk nCLR nLOAD enp ent : Nat) (d : Nat → Nat) :
    (s.tick clk nCLR nLOAD enp ent d).q = s.q
      ∧ (s.tick clk nCLR nLOAD enp ent d).rco = s.rco := by
  unfold IC_74HC161.tick
  constructor <;> (repeat' split) <;> rfl

/-- Frame property of `IC_74HC193.tick`: the recorded outputs are
untouched. -/
theorem tick193_frame (s : IC_74HC193) (up down clr nLOAD : Nat) (d : Nat → Nat) :
    (s.tick up down clr nLOAD d).q = s.q
      ∧ (s.tick up down clr nLOAD d).nCO = s.nCO
      ∧ (s.tick up down clr nLOAD d).nBO = s.nBO := by
  unfold IC_74HC193.tick
  refine ⟨?_, ?_, ?_⟩ <;> (repeat' split) <;> rfl

/-- C4: the 74HC574 register latches the 8 D pins into `val` exactly on a
rising clock edge (clock now 1, previously observed 0) and at no other
time, always recording the observed clock; `eval` never changes the
internal state, drives each Q output with the corresponding bit of `val`
while `~OE` reads 0 and tri-states all Q outputs otherwise (`eval` does
not read the D pins at all, so D changes cannot affect Q before the next
rising edge); and after a rising edge the driven outputs are exactly the
D values sampled at that edge — a further `tick` at clock still 1 with
different D values does not relatch. -/
theorem ic74hc574_spec (s : IC_74HC574) (clk nOE : Nat) (d dNew : Nat → Nat) :
    (clk = 1 ∧ s.prevClk = 0 → (s.tick clk d).val = orPins 8 d)
  ∧ (¬(clk = 1 ∧ s.prevClk = 0) → (s.tick clk d).val = s.val)
  ∧ (s.tick clk d).prevClk = clk
  ∧ ((s.eval nOE).val = s.val ∧ (s.eval nOE).prevClk = s.prevClk)
  ∧ (nOE = 0 → ∀ i : Fin 8, (s.eval nOE).q i = DriveVal.val ((s.val >>> i.val) &&& 1))
  ∧ (nOE ≠ 0 → ∀ i : Fin 8, (s.eval nOE).q i = DriveVal.hiZ)
  ∧ (s.prevClk = 0 →
      (∀ i : Fin 8, ((s.tick 1 d).eval 0).q i = DriveVal.val (if d i.val = 1 then 1 else 0))
        ∧ ((s.tick 1 d).tick 1 dNew).val = orPins 8 d) := by
  refine ⟨?_, ?_, ?_, ?_, ?_, ?_, ?_⟩
  · intro h
    simp [IC_74HC574.tick, h]
  · intro h
    simp [IC_74HC574.tick, h]
  · rfl
  · by_cases h : nOE = 0 <;> simp [IC_74HC574.eval, h]
  · intro h i
    simp [IC_74HC574.eval, h]
  · intro h i
    simp [IC_74HC574.eval, h]
  · intro hprev
    have hv : (s.tick 1 d).val = orPins 8 d := by simp [IC_74HC574.tick, hprev]
    constructor
    · intro i
      have hq : ((s.tick 1 d).eval 0).q i
          = DriveVal.val (((s.tick 1 d).val >>> i.val) &&& 1) := by
        simp [IC_74HC574.eval]
      rw [hq, hv, orPins_bit 8 d i.val i.isLt]
    · simp [IC_74HC574.tick, hprev]

/-- Witness for `ic74hc574_spec`: a register with `val = 0`, `prev_clk =
0` latches D = 0x01 on a rising edge and then drives Q0 with 1. -/
theorem ic74hc574_spec_witness :
    ((⟨0, 0, fun _ => DriveVal.hiZ⟩ : IC_74HC574).tick 1
        (fun i => if i = 0 then 1 else 0)).val = orPins 8 (fun i => if i = 0 then 1 else 0)
  ∧ (((⟨0, 0, fun _ => DriveVal.hiZ⟩ : IC_74HC574).tick 1
        (fun i => if i = 0 then 1 else 0)).eval 0).q 0 = DriveVal.val 1 := by
  constructor
  · exact (ic74hc574_spec ⟨0, 0, fun _ => DriveVal.hiZ⟩ 1 0
      (fun i => if i = 0 then 1 else 0) (fun i => if i = 0 then 1 else 0)).1 ⟨rfl, rfl⟩
  · have h := ((ic74hc574_spec ⟨0, 0, fun _ => DriveVal.hiZ⟩ 1 0
      (fun i => if i = 0 then 1 else 0) (fun i => if i = 0 then 1 else 0)).2.2.2.2.2.2
      rfl).1 0
    simpa using h

/-- C5: memory round-trip.  For every address `a` in 0..32767 and byte
`v` in 0..255: an `eval` step with `~CE = 0` and `~WE = 0` (any `~OE`)
and the D pins presenting the bits of `v` stores `v` at `a`; a subsequent
`eval` with `~CE = 0`, `~OE = 0`, `~WE = 1` at the same address drives
each Q pin with the corresponding bit of `v`; and under any enable
combination other than (`~CE = 0`, `~OE = 0`, `~WE = 1`) all eight Q
outputs are tri-stated. -/
theorem ic28c256_roundtrip (st : IC_28C256) (a v nOE : Nat) (dNew : Nat → Nat)
    (ha : a < 32768) (hv : v < 256) :
    (st.eval 0 nOE 0 (fun i => (a >>> i) &&& 1) (fun i => (v >>> i) &&& 1)).mem a = v
  ∧ (∀ i : Fin 8,
      ((st.eval 0 nOE 0 (fun i => (a >>> i) &&& 1) (fun i => (v >>> i) &&& 1)).eval
          0 0 1 (fun i => (a >>> i) &&& 1) dNew).q i
        = DriveVal.val ((v >>> i.val) &&& 1))
  ∧ (∀ (st2 : IC_28C256) (nCE nOE2 nWE : Nat) (a2 d2 : Nat → Nat),
      ¬(nCE = 0 ∧ nOE2 = 0 ∧ nWE = 1) →
      ∀ i : Fin 8, (st2.eval nCE nOE2 nWE a2 d2).q i = DriveVal.hiZ) := by
  have haddr : sumPins 15 (fun i => (a >>> i) &&& 1) = a := sumPins_bits15 a ha
  have hdata : sumPins 8 (fun i => (v >>> i) &&& 1) = v := sumPins_bits8 v hv
  simp only [Nat.and_one_is_mod] at haddr hdata
  refine ⟨?_, ?_, ?_⟩
  · simp [IC_28C256.eval, haddr, hdata]
  · intro i
    simp [IC_28C256.eval, haddr, hdata]
  · intro st2 nCE nOE2 nWE a2 d2 h i
    by_cases hw : nCE = 0 ∧ nWE = 0 <;> simp [IC_28C256.eval, h, hw]

/-- Witness for `ic28c256_roundtrip`: writing byte 171 to address 5 of a
zeroed memory then reading address 5 drives Q0 with 1 (bit 0 of 171). -/
theorem ic28c256_roundtrip_witness :
    ((⟨fun _ => 0, fun _ => DriveVal.hiZ⟩ : IC_28C256).eval 0 1 0
        (fun i => (5 >>> i) &&& 1) (fun i => (171 >>> i) &&& 1)).mem 5 = 171
  ∧ (((⟨fun _ => 0, fun _ => DriveVal.hiZ⟩ : IC_28C256).eval 0 1 0
        (fun i => (5 >>> i) &&& 1) (fun i => (171 >>> i) &&& 1)).eval
        0 0 1 (fun i => (5 >>> i) &&& 1) (fun _ => 0)).q 0 = DriveVal.val 1 := by
  constructor
  · exact (ic28c256_roundtrip ⟨fun _ => 0, fun _ => DriveVal.hiZ⟩ 5 171 1 (fun _ => 0)
      (by decide) (by decide)).1
  · exact ((ic28c256_roundtrip ⟨fun _ => 0, fun _ => DriveVal.hiZ⟩ 5 171 1 (fun _ => 0)
      (by decide) (by decide)).2.1 0).trans (by decide)

/-- C6: for every chip type in the catalog, `eval` is idempotent when the
states of all connected nets are unchanged: a second `eval` with the same
pin readings reproduces exactly the same output pin values and internal
state — including the chips whose `eval` writes internal state (the
counters' clear paths and the memory's level-sensitive write path). -/
theorem chip_eval_idempotent :
    (∀ (s : IC_74HC574) (nOE : Nat), (s.eval nOE).eval nOE = s.eval nOE)
  ∧ (∀ (s : IC_74HC161) (nCLR ent : Nat), (s.eval nCLR ent).eval nCLR ent = s.eval nCLR ent)
  ∧ (∀ (s : IC_74HC193) (clr up down : Nat),
      (s.eval clr up down).eval clr up down = s.eval clr up down)
  ∧ (∀ (st : IC_74HC245) (dir nOE : Nat) (aIn bIn : Nat → Nat),
      (st.eval dir nOE aIn bIn).eval dir nOE aIn bIn = st.eval dir nOE aIn bIn)
  ∧ (∀ (st : IC_74HC283) (a b : Nat → Nat) (c0 : Nat),
      (st.eval a b c0).eval a b c0 = st.eval a b c0)
  ∧ (∀ (st : IC_74HC138) (a b c nG2A nG2B g1 : Nat),
      (st.eval a b c nG2A nG2B g1).eval a b c nG2A nG2B g1 = st.eval a b c nG2A nG2B g1)
  ∧ (∀ (st : IC_74HC154) (a b c d nG1 nG2 : Nat),
      (st.eval a b c d nG1 nG2).eval a b c d nG1 nG2 = st.eval a b c d nG1 nG2)
  ∧ (∀ (st : IC_74HC04) (a : Nat → Nat), (st.eval a).eval a = st.eval a)
  ∧ (∀ (st : IC_74HC08) (a b : Nat → Nat), (st.eval a b).eval a b = st.eval a b)
  ∧ (∀ (st : IC_74HC32) (a b : Nat → Nat), (st.eval a b).eval a b = st.eval a b)
  ∧ (∀ (st : IC_74HC00) (a b : Nat → Nat), (st.eval a b).eval a b = st.eval a b)
  ∧ (∀ (st : IC_28C256) (nCE nOE nWE : Nat) (a d : Nat → Nat),
      (st.eval nCE nOE nWE a d).eval nCE nOE nWE a d = st.eval nCE nOE nWE a d)
  ∧ (∀ (st : GAL_ALU) (aPins bPins opPins : Nat → Nat) (nOE : Nat),
      (st.eval aPins bPins opPins nOE).eval aPins bPins opPins nOE
        = st.eval aPins bPins opPins nOE) := by
  refine ⟨eval574_idem, eval161_idem, eval193_idem, ?_, ?_, ?_, ?_, ?_, ?_, ?_, ?_,
    eval28_idem, ?_⟩
  · intro st dir nOE aIn bIn
    rfl
  · intro st a b c0
    rfl
  · intro st a b c nG2A nG2B g1
    rfl
  · intro st a b c d nG1 nG2
    rfl
  · intro st a
    rfl
  · intro st a b
    rfl
  · intro st a b
    rfl
  · intro st a b
    rfl
  · intro st aPins bPins opPins nOE
    rfl

/-- C9: no `tick` in the catalog mutates any recorded output pin value,
whatever the edge condition — `tick` touches only internal sequential
state and the previously observed clock/count inputs; chips without a
`tick` override inherit the base class `pass`. -/
theorem chip_tick_preserves_outputs :
    (∀ (s : IC_74HC574) (clk : Nat) (d : Nat → Nat), (s.tick clk d).q = s.q)
  ∧ (∀ (s : IC_74HC161) (clk nCLR nLOAD enp ent : Nat) (d : Nat → Nat),
      (s.tick clk nCLR nLOAD enp ent d).q = s.q
        ∧ (s.tick clk nCLR nLOAD enp ent d).rco = s.rco)
  ∧ (∀ (s : IC_74HC193) (up down clr nLOAD : Nat) (d : Nat → Nat),
      (s.tick up down clr nLOAD d).q = s.q
        ∧ (s.tick up down clr nLOAD d).nCO = s.nCO
        ∧ (s.tick up down clr nLOAD d).nBO = s.nBO)
  ∧ (∀ (α : Type) (s : α), tickDefault s = s) :=
  ⟨tick574_frame, tick161_frame, tick193_frame, fun _ _ => rfl⟩

/-- C10: on every `GAL_ALU.eval` call the three flag outputs Z, C, N are
driven (never tri-stated) with values determined by the selected
operation on the current operands, regardless of `~OE`; only the result
outputs Q0..Q7 are tri-stated when `~OE` reads 1, and they carry the
result byte when `~OE` reads 0. -/
theorem gal_alu_flags_spec (st : GAL_ALU) (aPins bPins opPins : Nat → Nat) (nOE : Nat) :
    (st.eval aPins bPins opPins nOE).z
      = DriveVal.val
          (if aluByte (sumPins 8 aPins) (sumPins 8 bPins) (sumPins 3 opPins) = 0 then 1 else 0)
  ∧ (st.eval aPins bPins opPins nOE).c
      = DriveVal.val (aluRes (sumPins 8 aPins) (sumPins 8 bPins) (sumPins 3 opPins)).2
  ∧ (st.eval aPins bPins opPins nOE).n
      = DriveVal.val
          ((aluByte (sumPins 8 aPins) (sumPins 8 bPins) (sumPins 3 opPins) >>> 7) &&& 1)
  ∧ (st.eval aPins bPins opPins nOE).z ≠ DriveVal.hiZ
  ∧ (st.eval aPins bPins opPins nOE).c ≠ DriveVal.hiZ
  ∧ (st.eval aPins bPins opPins nOE).n ≠ DriveVal.hiZ
  ∧ (nOE = 0 → ∀ i : Fin 8,
      (st.eval aPins bPins opPins nOE).q i
        = DriveVal.val
            ((aluByte (sumPins 8 aPins) (sumPins 8 bPins) (sumPins 3 opPins) >>> i.val) &&& 1))
  ∧ (nOE ≠ 0 → ∀ i : Fin 8, (st.eval aPins bPins opPins nOE).q i = DriveVal.hiZ) := by
  refine ⟨rfl, rfl, rfl, by simp [GAL_ALU.eval], by simp [GAL_ALU.eval],
    by simp [GAL_ALU.eval], ?_, ?_⟩
  · intro h i
    simp [GAL_ALU.eval, h]
  · intro h i
    simp [GAL_ALU.eval, h]

/-- Witness for `gal_alu_flags_spec`: adding operands 3 and 5 (opcode 0)
with output enabled drives Z with 0 and Q3 with 1 (result byte 8). -/
theorem gal_alu_flags_spec_witness :
    ((⟨fun _ => DriveVal.hiZ, DriveVal.hiZ, DriveVal.hiZ, DriveVal.hiZ⟩ : GAL_ALU).eval
        (fun i => (3 >>> i) &&& 1) (fun i => (5 >>> i) &&& 1) (fun _ => 0) 0).z
      = DriveVal.val 0
  ∧ ((⟨fun _ => DriveVal.hiZ, DriveVal.hiZ, DriveVal.hiZ, DriveVal.hiZ⟩ : GAL_ALU).eval
        (fun i => (3 >>> i) &&& 1) (fun i => (5 >>> i) &&& 1) (fun _ => 0) 0).q 3
      = DriveVal.val 1 := by
  constructor
  · exact ((gal_alu_flags_spec ⟨fun _ => DriveVal.hiZ, DriveVal.hiZ, DriveVal.hiZ,
      DriveVal.hiZ⟩ (fun i => (3 >>> i) &&& 1) (fun i => (5 >>> i) &&& 1)
      (fun _ => 0) 0).1).trans (by decide)
  · exact (((gal_alu_flags_spec ⟨fun _ => DriveVal.hiZ, DriveVal.hiZ, DriveVal.hiZ,
      DriveVal.hiZ⟩ (fun i => (3 >>> i) &&& 1) (fun i => (5 >>> i) &&& 1)
      (fun _ => 0) 0).2.2.2.2.2.2.1 rfl 3)).trans (by decide)

end Hardware
